import Mathlib

/-!
Verification of the treasure-hunt game controller and rotary encoder
(`src/code.py`, `src/rotary_encoder.py`) against its design specification.

The Python sources are shallowly embedded: every piece of mutable object
state becomes a structure, every method becomes a pure function from the
old state (plus the sampled inputs and the current monotonic clock value,
modelled as a rational number of seconds) to the new state.  Python
integers are `Int`/`Nat`, Python `//` on integers is `Int.fdiv`
(floor division), Python `%` on integers with positive modulus is
`Int.emod`, and `random.randint(0, i)` is modelled by an arbitrary choice
function constrained to return a value `≤ i`.
-/

/-! ## Rotary quadrature decoder (`rotary_encoder.py`) -/

/-- State of `RotaryEncoder`: the fields `_last_a`, `_last_b`,
`_last_change_time` (milliseconds), `_position_raw`, `_position`,
`_delta_accum`, `_debounce_ms`, `_pulses_per_detent`. -/
structure RotaryEncoder where
  last_a : Bool
  last_b : Bool
  last_change_time : ℚ
  position_raw : Int
  position : Int
  delta_accum : Int
  debounce_ms : Int
  pulses_per_detent : Int

/-- `RotaryEncoder.__init__`: pins give the initial levels `a0`, `b0`;
`debounce_ms` is clamped to `max 0`, `pulses_per_detent` to `max 1`;
all counters start at zero. -/
def RotaryEncoder.init (a0 b0 : Bool) (t0 : ℚ) (db ppd : Int) : RotaryEncoder :=
  { last_a := a0, last_b := b0, last_change_time := t0,
    position_raw := 0, position := 0, delta_accum := 0,
    debounce_ms := max 0 db, pulses_per_detent := max 1 ppd }

/-- `RotaryEncoder.update`: processes newly sampled levels `a`, `b` at time
`now` (ms).  Only an edge on A that passes the debounce check moves the raw
counter; the detent position is the floor division of the raw counter by
`pulses_per_detent`, and `delta_accum` collects detent-position changes.
The sampled levels are stored as last-observed in every branch, exactly as
in the source. -/
def RotaryEncoder.update (s : RotaryEncoder) (a b : Bool) (now : ℚ) :
    RotaryEncoder × Bool :=
  if a ≠ s.last_a then
    if now - s.last_change_time ≥ (s.debounce_ms : ℚ) then
      let raw :=
        if a = false then
          if b then s.position_raw + 1 else s.position_raw - 1
        else
          if b then s.position_raw - 1 else s.position_raw + 1
      let new_pos := Int.fdiv raw s.pulses_per_detent
      if new_pos ≠ s.position then
        ({ s with position_raw := raw, last_change_time := now,
                  position := new_pos,
                  delta_accum := s.delta_accum + (new_pos - s.position),
                  last_a := a, last_b := b }, true)
      else
        ({ s with position_raw := raw, last_change_time := now,
                  last_a := a, last_b := b }, false)
    else ({ s with last_a := a, last_b := b }, false)
  else ({ s with last_a := a, last_b := b }, false)

/-- `RotaryEncoder.get_delta`: read-and-clear of the accumulated detent
delta. -/
def RotaryEncoder.get_delta (s : RotaryEncoder) : Int × RotaryEncoder :=
  (s.delta_accum, { s with delta_accum := 0 })

/-- `RotaryEncoder.reset`: force the detent position to zero or to a
caller-supplied detent with a consistent raw count; clear any pending
delta. -/
def RotaryEncoder.reset (s : RotaryEncoder) (to_detent : Option Int) :
    RotaryEncoder :=
  match to_detent with
  | none => { s with position_raw := 0, position := 0, delta_accum := 0 }
  | some d => { s with position := d, position_raw := d * s.pulses_per_detent,
                       delta_accum := 0 }

/-- One operation performed on the encoder. -/
inductive EncOp where
  | upd (a b : Bool) (now : ℚ)
  | read_delta
  | rst (t : Option Int)

/-- An encoder together with ghost bookkeeping for the specification:
`sumDelta` is the sum of all values returned by `get_delta` since the last
reset (or construction), and `base` is the detent position at the last
reset (or construction). -/
structure EncTrace where
  enc : RotaryEncoder
  sumDelta : Int
  base : Int

/-- Execute one operation on an encoder trace. -/
def encStep (t : EncTrace) (op : EncOp) : EncTrace :=
  match op with
  | .upd a b now => { t with enc := (t.enc.update a b now).1 }
  | .read_delta =>
      let r := t.enc.get_delta
      { t with enc := r.2, sumDelta := t.sumDelta + r.1 }
  | .rst td =>
      let e := t.enc.reset td
      { enc := e, sumDelta := 0, base := e.position }

/-- Execute a sequence of operations. -/
def encRun (t : EncTrace) (ops : List EncOp) : EncTrace := ops.foldl encStep t

/-- The trace of a freshly constructed encoder. -/
def encInitTrace (a0 b0 : Bool) (t0 : ℚ) (db ppd : Int) : EncTrace :=
  { enc := RotaryEncoder.init a0 b0 t0 db ppd, sumDelta := 0, base := 0 }

/-- The invariant tying an encoder trace together: the detent position is
the floor division of the raw count by the detent size, the sum of values
read by `get_delta` plus the pending accumulator equals the detent change
since the last reset, and the detent size is at least one. -/
def EncInv (t : EncTrace) : Prop :=
  t.enc.position = Int.fdiv t.enc.position_raw t.enc.pulses_per_detent ∧
  t.sumDelta + t.enc.delta_accum = t.enc.position - t.base ∧
  1 ≤ t.enc.pulses_per_detent

/-! ## Button debouncer (`Game.cbtn`) -/

/-- Button-poll state: last-observed level of the encoder button (`ebl`),
of the separate button (`bl`), and the shared last-accepted-press time
`lbt` (seconds). -/
structure BtnState where
  ebl : Bool
  bl : Bool
  lbt : ℚ

/-- `Game.cbtn`: if less than 0.2 s passed since the last accepted press,
return `false` immediately (note: without sampling or storing the button
levels).  Otherwise detect a high-to-low transition on either button
relative to the stored levels, store the sampled levels, and on a detected
press record the acceptance time. -/
def cbtn (s : BtnState) (e b : Bool) (now : ℚ) : BtnState × Bool :=
  if now - s.lbt < 1/5 then (s, false)
  else
    let pr := (s.ebl && !e) || (s.bl && !b)
    ({ ebl := e, bl := b, lbt := if pr then now else s.lbt }, pr)

/-- Run the button poll over a list of samples `(e, b, now)`; return the
final state and the list of times at which presses were accepted, in
order. -/
def runBtn (s : BtnState) (samples : List (Bool × Bool × ℚ)) :
    BtnState × List ℚ :=
  match samples with
  | [] => (s, [])
  | (e, b, t) :: rest =>
      let r := cbtn s e b t
      let rr := runBtn r.1 rest
      (rr.1, if r.2 then t :: rr.2 else rr.2)

/-! ## Cursor movement (`Game.move`) -/

/-- `Game.move`: move the cursor one cell in serpentine order.  A positive
`d` moves right, wrapping from the last column to column 0 of the next row
modulo the row count; otherwise the cursor moves left, wrapping from
column 0 to the last column of the previous row modulo the row count.
Python `%` on a positive modulus is `Int.emod`, which is Lean's `%` on
`Int`. -/
def move (d : Int) (rows cols : Int) (p : Int × Int) : Int × Int :=
  if d > 0 then
    if p.2 + 1 ≥ cols then ((p.1 + 1) % rows, 0) else (p.1, p.2 + 1)
  else
    if p.2 - 1 < 0 then ((p.1 - 1) % rows, cols - 1) else (p.1, p.2 - 1)

/-! ## Game data model (`Game.__init__` and the fixed tables) -/

/-- The values of the string-tagged state field `self.st`. -/
inductive GState where
  | MENU
  | PLAY
  | LV10
  | WIN
  | OVER
deriving DecidableEq

/-- One entry of the difficulty table: name, starting health, per-level
time limit, final-level health, final-level time limit. -/
structure DiffConfig where
  n : String
  hp : Int
  t : Int
  h10 : Int
  t10 : Int

/-- The difficulty table `self.cfg` with keys 0 (easy), 1 (medium),
2 (hard).  `self.df` is always reduced modulo 3, so the catch-all branch
is only ever reached with key 2. -/
def cfg (df : Nat) : DiffConfig :=
  if df = 0 then ⟨"EASY", 6, 60, 2, 30⟩
  else if df = 1 then ⟨"MED", 4, 30, 2, 15⟩
  else ⟨"HARD", 2, 15, 1, 15⟩

/-- One entry of the level table: rows, columns, treasure count, bomb
count, treasures needed to clear. -/
structure LevelConfig where
  rows : Nat
  cols : Nat
  treasure : Nat
  bombs : Nat
  need : Nat

/-- The level table `self.lvl` with keys 1..9.  `PLAY` only indexes it
with levels in that range; the catch-all branch repeats the key-1 entry
for totality. -/
def lvl (l : Nat) : LevelConfig :=
  if l = 1 then ⟨2, 2, 2, 1, 1⟩
  else if l = 2 then ⟨2, 3, 3, 2, 2⟩
  else if l = 3 then ⟨2, 3, 3, 2, 2⟩
  else if l = 4 then ⟨3, 3, 4, 3, 2⟩
  else if l = 5 then ⟨3, 3, 4, 3, 3⟩
  else if l = 6 then ⟨3, 4, 5, 4, 3⟩
  else if l = 7 then ⟨3, 4, 5, 5, 3⟩
  else if l = 8 then ⟨4, 4, 6, 5, 4⟩
  else if l = 9 then ⟨4, 4, 6, 6, 4⟩
  else ⟨2, 2, 2, 1, 1⟩

/-- `self.shake_threshold = 2.0`. -/
def shake_threshold : ℚ := 2

/-- `self.shake_duration = 3.0`. -/
def shake_duration : ℚ := 3

/-- `Game.check_shake`: `accel` is the sampled acceleration triple, `none`
when the sensor raised (the bare `except` path, treated as no shake).
`sqrt (x² + y² + z²) > 9.8 + threshold` is stated equivalently without the
square root by comparing squares, both sides being nonnegative. -/
def check_shake (accel : Option (ℚ × ℚ × ℚ)) : Bool :=
  match accel with
  | none => false
  | some (x, y, z) =>
      decide ((98/10 + shake_threshold)^2 < x^2 + y^2 + z^2)

/-- Read cell `(r, c)` of a 2-D list, with a default for out-of-range
indices (the game only reads in-range cells). -/
def getCell {α : Type} (d : α) (g : List (List α)) (r c : Nat) : α :=
  (g.getD r []).getD c d

/-- Write cell `(r, c)` of a 2-D list (`grd[r][c] = v`); an out-of-range
write is dropped (the game only writes in-range cells). -/
def setCell {α : Type} (g : List (List α)) (r c : Nat) (v : α) :
    List (List α) :=
  g.set r ((g.getD r []).set c v)

/-- Simultaneous swap `l[i], l[j] = l[j], l[i]`; out-of-range indices
leave the list unchanged (`Game.shuf` only ever swaps in-range indices). -/
def swapIdx {α : Type} (l : List α) (i j : Nat) : List α :=
  if h : i < l.length ∧ j < l.length then
    (l.set i (l.get ⟨j, h.2⟩)).set j (l.get ⟨i, h.1⟩)
  else l

/-- The loop of `Game.shuf` over `range(len(l) - 1, 0, -1)`, i.e. for
indices `i, i-1, ..., 1`: swap element `i` with element `rnd i`, where
`rnd i` models the value returned by `random.randint(0, i)`. -/
def shufFrom {α : Type} (rnd : Nat → Nat) (l : List α) : Nat → List α
  | 0 => l
  | i + 1 => shufFrom rnd (swapIdx l (i + 1) (rnd (i + 1))) i

/-- `Game.shuf`: in-place Fisher-Yates shuffle driven by the choice
function `rnd`. -/
def shuf {α : Type} (rnd : Nat → Nat) (l : List α) : List α :=
  shufFrom rnd l (l.length - 1)

/-- The coordinate enumeration
`ps = [(i, j) for i in range(r) for j in range(co)]` of `Game.ilvl`
(definitionally `(List.range r) ×ˢ (List.range co)`). -/
def allCoords (r co : Nat) : List (Nat × Nat) :=
  (List.range r).flatMap (fun i => (List.range co).map (fun j => (i, j)))

/-- The placement loops of `Game.ilvl`: set `grd[p.1][p.2] = v` for each
`p` of `coords` in order. -/
def place (g : List (List Char)) (coords : List (Nat × Nat)) (v : Char) :
    List (List Char) :=
  coords.foldl (fun acc p => setCell acc p.1 p.2 v) g

/-- Grid generation inside `Game.ilvl`: an all-blank `r × co` grid, the
shuffled coordinate list `ps`, cells `ps[0..tr)` set to treasure `'T'` and
cells `ps[tr..tr+bm)` set to bomb `'B'`. -/
def genGrid (rnd : Nat → Nat) (r co tr bm : Nat) : List (List Char) :=
  let ps := shuf rnd (allCoords r co)
  place (place (List.replicate r (List.replicate co ' '))
    (ps.take tr) 'T') ((ps.drop tr).take bm) 'B'

/-- Number of cells of a 2-D grid holding value `v`. -/
def countGrid (g : List (List Char)) (v : Char) : Nat :=
  (g.map (fun row => row.count v)).sum

/-- The game-session fields of `Game` touched by the verified
operations. -/
structure GameState where
  st : GState
  df : Nat
  lv : Nat
  hp : Int
  sc : Int
  grd : List (List Char)
  rev : List (List Bool)
  pos : Nat × Nat
  fnd : Nat
  stm : ℚ
  tlm : Int
  fch : Nat
  fhp : Int
  shake_event_available : Bool
  bomb_disarm_active : Bool
  shake_start_time : ℚ
  last_tick_time : ℚ
deriving DecidableEq

/-- `Game.ilvl`: reset health and the time limit from the difficulty
table, re-grant the disarm opportunity on easy difficulty only, build a
fresh shuffled grid and a cleared revealed array, reset the cursor, the
treasure counter, the level start time and the disarm-active flag. -/
def ilvl (g : GameState) (rnd : Nat → Nat) (now : ℚ) : GameState :=
  let c := cfg g.df
  let lc := lvl g.lv
  { g with
    hp := c.hp,
    tlm := c.t,
    shake_event_available := g.df == 0,
    grd := genGrid rnd lc.rows lc.cols lc.treasure lc.bombs,
    rev := List.replicate lc.rows (List.replicate lc.cols false),
    pos := (0, 0),
    fnd := 0,
    stm := now,
    bomb_disarm_active := false }

/-- `Game.dig`: reveal the cursor cell unless it is already revealed (in
which case nothing at all happens); a treasure increments the found
counter and the score, a bomb either starts the disarm sub-state (when
the opportunity is available, consuming it) or costs one health point, an
empty cell is merely revealed. -/
def dig (g : GameState) (now : ℚ) : GameState :=
  if getCell false g.rev g.pos.1 g.pos.2 then g
  else
    let rev := setCell g.rev g.pos.1 g.pos.2 true
    if getCell ' ' g.grd g.pos.1 g.pos.2 = 'T' then
      { g with rev := rev, fnd := g.fnd + 1, sc := g.sc + 50 }
    else if getCell ' ' g.grd g.pos.1 g.pos.2 = 'B' then
      if g.shake_event_available then
        { g with rev := rev, bomb_disarm_active := true,
                 shake_start_time := now, last_tick_time := now,
                 shake_event_available := false }
      else { g with rev := rev, hp := g.hp - 1 }
    else { g with rev := rev }

/-- The disarm-handling branch of one `Game.play` iteration (taken while
`bomb_disarm_active`): refresh the tick-sound timestamp, then check the
timeout FIRST — `elapsed ≥ shake_duration` resolves as failure
(deactivate, health −1, OVER when health is exhausted) — and only when
the timeout has not yet been reached sample the shake, which resolves as
success (deactivate, +100 score); otherwise stay active. -/
def disarmStep (g : GameState) (now : ℚ) (accel : Option (ℚ × ℚ × ℚ)) :
    GameState :=
  let g1 :=
    if now - g.last_tick_time > 1/2 then { g with last_tick_time := now }
    else g
  if now - g1.shake_start_time ≥ shake_duration then
    let g2 := { g1 with bomb_disarm_active := false, hp := g1.hp - 1 }
    if g2.hp ≤ 0 then { g2 with st := GState.OVER } else g2
  else if check_shake accel then
    { g1 with bomb_disarm_active := false, sc := g1.sc + 100 }
  else g1

/-- The countdown handling of one `Game.play` iteration when no disarm is
active: elapsed time truncated to whole seconds, remaining time clamped
at zero; on a timeout lose one health point and either transition to OVER
(health exhausted — the level is NOT regenerated) or re-initialize the
current level via `ilvl`; before the timeout nothing changes. -/
def playTimeCheck (g : GameState) (rnd : Nat → Nat) (now : ℚ) : GameState :=
  let el : Int := ⌊now - g.stm⌋
  let rm : Int := max 0 (g.tlm - el)
  if rm ≤ 0 then
    let g1 := { g with hp := g.hp - 1 }
    if g1.hp ≤ 0 then { g1 with st := GState.OVER }
    else ilvl g1 rnd now
  else g

/-- The confirm-press handling of `Game.lv10`: `cor` is the loop-local
correct answer, `newCor` the freshly drawn `random.randint(0, 1)` used
only after a non-fatal wrong choice; the result carries the new state and
the (possibly re-randomized) correct answer.  A correct choice awards the
500-point bonus and goes to WIN; a wrong one costs one final-level health
point and either ends in OVER or restarts the countdown (`stm := now`,
with the per-loop time limit `(cfg df).t10` unchanged) with the new
answer, leaving `st` untouched. -/
def lv10Confirm (g : GameState) (cor newCor : Nat) (now : ℚ) :
    GameState × Nat :=
  if g.fch = cor then ({ g with sc := g.sc + 500, st := GState.WIN }, cor)
  else
    let fhp := g.fhp - 1
    if fhp ≤ 0 then ({ g with fhp := fhp, st := GState.OVER }, cor)
    else ({ g with fhp := fhp, stm := now }, newCor)

/-- A concrete in-play game state used by witnesses and counterexamples:
easy difficulty, level 1, full health, cell (0,0) already revealed. -/
def wState : GameState :=
  { st := GState.PLAY, df := 0, lv := 1, hp := 6, sc := 0,
    grd := [['T', 'B'], [' ', 'T']],
    rev := [[true, false], [false, false]],
    pos := (0, 0), fnd := 0, stm := 0, tlm := 60, fch := 0, fhp := 2,
    shake_event_available := true, bomb_disarm_active := false,
    shake_start_time := 0, last_tick_time := 0 }

/-! ## Theorems: rotary encoder (C6) -/

theorem update_inv (s : RotaryEncoder) (a b : Bool) (now : ℚ)
    (h1 : s.position = Int.fdiv s.position_raw s.pulses_per_detent) :
    (s.update a b now).1.position
        = Int.fdiv (s.update a b now).1.position_raw
            (s.update a b now).1.pulses_per_detent ∧
    (s.update a b now).1.delta_accum - s.delta_accum
        = (s.update a b now).1.position - s.position ∧
    (s.update a b now).1.pulses_per_detent = s.pulses_per_detent := by
  unfold RotaryEncoder.update
  dsimp only
  repeat' split
  all_goals dsimp only
  all_goals
    first
      | exact ⟨h1, by omega, rfl⟩
      | exact ⟨rfl, by omega, rfl⟩
      | (next hne => exact ⟨(not_ne_iff.mp hne).symm, by omega, rfl⟩)

theorem encStep_inv (t : EncTrace) (op : EncOp) (h : EncInv t) :
    EncInv (encStep t op) := by
  obtain ⟨h1, h2, h3⟩ := h
  cases op with
  | upd a b now =>
      obtain ⟨g1, g2, g3⟩ := update_inv t.enc a b now h1
      exact ⟨g1, by simp only [encStep]; omega, by simp only [encStep]; omega⟩
  | read_delta =>
      exact ⟨h1, by simp only [encStep, RotaryEncoder.get_delta]; omega, h3⟩
  | rst td =>
      cases td with
      | none =>
          refine ⟨?_, by simp [encStep, RotaryEncoder.reset], h3⟩
          simp [encStep, RotaryEncoder.reset, Int.zero_fdiv]
      | some d =>
          refine ⟨?_, by simp [encStep, RotaryEncoder.reset], h3⟩
          have hne : t.enc.pulses_per_detent ≠ 0 := by omega
          simp only [encStep, RotaryEncoder.reset]
          rw [Int.fdiv_eq_ediv _ (by omega), Int.mul_ediv_cancel _ hne]

theorem encRun_inv : ∀ (ops : List EncOp) (t : EncTrace),
    EncInv t → EncInv (encRun t ops)
  | [], _, h => h
  | op :: ops, t, h => encRun_inv ops (encStep t op) (encStep_inv t op h)

theorem encInit_inv (a0 b0 : Bool) (t0 : ℚ) (db ppd : Int) :
    EncInv (encInitTrace a0 b0 t0 db ppd) := by
  refine ⟨?_, ?_, ?_⟩
  · simp [encInitTrace, RotaryEncoder.init, Int.zero_fdiv]
  · simp [encInitTrace, RotaryEncoder.init]
  · simp only [encInitTrace, RotaryEncoder.init]
    exact le_max_left 1 ppd

/-- C6: for every sequence of encoder operations (update, get_delta, reset)
starting from a freshly constructed decoder, the detent position always
equals the floor division of the raw pulse count by pulses-per-detent, and
the sum of the values returned by `get_delta` calls since construction or
the last reset, plus the still-pending accumulator, equals the total
change of the detent position since then; in particular reading the delta
once more makes the sum equal exactly the total detent change. -/
theorem encoder_invariant (a0 b0 : Bool) (t0 : ℚ) (db ppd : Int)
    (ops : List EncOp) :
    (encRun (encInitTrace a0 b0 t0 db ppd) ops).enc.position
        = Int.fdiv (encRun (encInitTrace a0 b0 t0 db ppd) ops).enc.position_raw
            (encRun (encInitTrace a0 b0 t0 db ppd) ops).enc.pulses_per_detent ∧
    (encRun (encInitTrace a0 b0 t0 db ppd) ops).sumDelta
          + (encRun (encInitTrace a0 b0 t0 db ppd) ops).enc.delta_accum
        = (encRun (encInitTrace a0 b0 t0 db ppd) ops).enc.position
          - (encRun (encInitTrace a0 b0 t0 db ppd) ops).base ∧
    (encRun (encInitTrace a0 b0 t0 db ppd) (ops ++ [EncOp.read_delta])).sumDelta
        = (encRun (encInitTrace a0 b0 t0 db ppd)
              (ops ++ [EncOp.read_delta])).enc.position
          - (encRun (encInitTrace a0 b0 t0 db ppd)
              (ops ++ [EncOp.read_delta])).base := by
  obtain ⟨h1, h2, h3⟩ :=
    encRun_inv ops (encInitTrace a0 b0 t0 db ppd)
      (encInit_inv a0 b0 t0 db ppd)
  refine ⟨h1, h2, ?_⟩
  have hail : encRun (encInitTrace a0 b0 t0 db ppd) (ops ++ [EncOp.read_delta])
      = encStep (encRun (encInitTrace a0 b0 t0 db ppd) ops) EncOp.read_delta := by
    simp [encRun, List.foldl_append]
  rw [hail]
  simp only [encStep, RotaryEncoder.get_delta]
  omega

/-! ## Theorems: button debouncer (C3, C4) -/

/-- C3 (amended): a poll less than 200 ms after the last accepted press is
a complete no-op: it reports not-pressed and leaves the stored
last-observed levels and timestamp entirely unchanged (the sampled levels
are NOT stored). -/
theorem cbtn_window_noop (s : BtnState) (e b : Bool) (now : ℚ)
    (h : now - s.lbt < 1/5) : cbtn s e b now = (s, false) := by
  unfold cbtn
  rw [if_pos h]

theorem cbtn_window_noop_witness :
    cbtn ⟨true, true, 0⟩ false true (1/10) = (⟨true, true, 0⟩, false) :=
  cbtn_window_noop ⟨true, true, 0⟩ false true (1/10) (by norm_num)

/-- C3 counterexample: a poll at 0.1 s after an accepted press (state
`⟨true, true, 0⟩`) with the encoder button now low reports not-pressed but
does NOT store the sampled low level (`ebl` stays `true`), so the
transition that occurred inside the 200 ms window IS reported as a press
by a later poll (at 0.3 s) — refuting both the level-storing conjunct and
the never-re-detected consequence of the claim. -/
theorem cbtn_window_counterexample :
    (1/10 : ℚ) - 0 < 1/5 ∧
    (cbtn ⟨true, true, 0⟩ false true (1/10)).2 = false ∧
    (cbtn ⟨true, true, 0⟩ false true (1/10)).1.ebl ≠ false ∧
    (cbtn (cbtn ⟨true, true, 0⟩ false true (1/10)).1 false true (3/10)).2
      = true := by
  norm_num [cbtn]

theorem cbtn_accepted (s : BtnState) (e b : Bool) (now : ℚ)
    (h : (cbtn s e b now).2 = true) :
    s.lbt + 1/5 ≤ now ∧ (cbtn s e b now).1.lbt = now := by
  unfold cbtn at h ⊢
  by_cases hw : now - s.lbt < 1/5
  · rw [if_pos hw] at h
    exact absurd h (by simp)
  · rw [if_neg hw] at h ⊢
    refine ⟨by linarith [not_lt.mp hw], ?_⟩
    simp only at h
    simp [h]

theorem cbtn_rejected (s : BtnState) (e b : Bool) (now : ℚ)
    (h : (cbtn s e b now).2 = false) : (cbtn s e b now).1.lbt = s.lbt := by
  unfold cbtn at h ⊢
  by_cases hw : now - s.lbt < 1/5
  · rw [if_pos hw]
  · rw [if_neg hw] at h ⊢
    simp only at h
    simp [h]

/-- C4 (amended): accepted press events are always separated by at least
200 ms: starting from any poll state, the times of the presses accepted
over any sample sequence form a chain with gaps of at least 0.2 s
(anchored at the stored last-accepted time).  Two high-to-low transitions
within 200 ms of each other therefore never yield two acceptances within
200 ms — but, as the counterexample shows, a press whose low level
persists past the window is accepted later as a second event, so the
original "exactly one press event in total" is false. -/
theorem cbtn_accept_spacing (s : BtnState)
    (samples : List (Bool × Bool × ℚ)) :
    List.Chain' (fun t1 t2 => t1 + 1/5 ≤ t2)
      (s.lbt :: (runBtn s samples).2) := by
  induction samples generalizing s with
  | nil => simp [runBtn]
  | cons sample rest ih =>
      obtain ⟨e, b, tm⟩ := sample
      simp only [runBtn]
      cases h : (cbtn s e b tm).2 with
      | false =>
          have hl := cbtn_rejected s e b tm h
          have h2 := ih (cbtn s e b tm).1
          rw [hl] at h2
          rw [if_neg Bool.false_ne_true]
          exact h2
      | true =>
          obtain ⟨ha, hl⟩ := cbtn_accepted s e b tm h
          have h2 := ih (cbtn s e b tm).1
          rw [hl] at h2
          rw [if_pos rfl]
          exact List.chain'_cons.mpr ⟨ha, h2⟩

/-- C4 counterexample: the encoder button goes low at t = 1 s (accepted)
and the separate button goes low at t = 1.1 s — two presses within 200 ms
of each other.  The poll at 1.1 s rejects, but the poll at 1.3 s accepts
the still-low separate button as a second press event: two acceptances in
total, refuting "exactly one press event in total across all subsequent
calls". -/
theorem cbtn_double_press_counterexample :
    (11/10 : ℚ) - 1 < 1/5 ∧
    (cbtn ⟨true, true, 0⟩ false true 1).2 = true ∧
    (cbtn (cbtn ⟨true, true, 0⟩ false true 1).1 true false (11/10)).2
      = false ∧
    (cbtn (cbtn (cbtn ⟨true, true, 0⟩ false true 1).1 true false
        (11/10)).1 true false (13/10)).2 = true := by
  norm_num [cbtn]

/-! ## Theorems: cursor movement (C7) -/

theorem pred_succ_emod (rows r : Int) (h0 : 0 ≤ r) (h : r < rows) :
    ((r + 1) % rows - 1) % rows = r := by
  have hrows : 0 < rows := lt_of_le_of_lt h0 h
  rcases eq_or_lt_of_le (Int.add_one_le_iff.mpr h) with heq | hlt
  · rw [heq, Int.emod_self]
    have h1 : (0 - 1 : Int) % rows = (0 - 1 + rows * 1) % rows :=
      (Int.add_mul_emod_self_left (0 - 1) rows 1).symm
    rw [h1, show (0 - 1 + rows * 1 : Int) = rows - 1 by ring,
      Int.emod_eq_of_lt (by omega) (by omega)]
    omega
  · rw [Int.emod_eq_of_lt (by omega) hlt,
      show (r + 1 - 1 : Int) = r by ring, Int.emod_eq_of_lt h0 h]

theorem succ_pred_emod (rows r : Int) (h0 : 0 ≤ r) (h : r < rows) :
    ((r - 1) % rows + 1) % rows = r := by
  have hrows : 0 < rows := lt_of_le_of_lt h0 h
  rcases eq_or_lt_of_le h0 with heq | hlt
  · subst heq
    have h1 : ((0:Int) - 1) % rows = (0 - 1 + rows * 1) % rows :=
      (Int.add_mul_emod_self_left (0 - 1) rows 1).symm
    rw [h1, show ((0:Int) - 1 + rows * 1) = rows - 1 by ring,
      @Int.emod_eq_of_lt (rows - 1) rows (by omega) (by omega),
      show (rows - 1 + 1 : Int) = rows by ring, Int.emod_self]
  · rw [@Int.emod_eq_of_lt (r - 1) rows (by omega) (by omega),
      show (r - 1 + 1 : Int) = r by ring, Int.emod_eq_of_lt h0 h]

theorem move_fwd_wrap (rows cols r c : Int) (h : c + 1 ≥ cols) :
    move 1 rows cols (r, c) = ((r + 1) % rows, 0) := by
  unfold move
  rw [if_pos (show (1:Int) > 0 by norm_num)]
  dsimp only
  rw [if_pos h]

theorem move_fwd_step (rows cols r c : Int) (h : ¬ (c + 1 ≥ cols)) :
    move 1 rows cols (r, c) = (r, c + 1) := by
  unfold move
  rw [if_pos (show (1:Int) > 0 by norm_num)]
  dsimp only
  rw [if_neg h]

theorem move_bwd_wrap (rows cols r c : Int) (h : c - 1 < 0) :
    move (-1) rows cols (r, c) = ((r - 1) % rows, cols - 1) := by
  unfold move
  rw [if_neg (show ¬ ((-1:Int) > 0) by norm_num)]
  dsimp only
  rw [if_pos h]

theorem move_bwd_step (rows cols r c : Int) (h : ¬ (c - 1 < 0)) :
    move (-1) rows cols (r, c) = (r, c - 1) := by
  unfold move
  rw [if_neg (show ¬ ((-1:Int) > 0) by norm_num)]
  dsimp only
  rw [if_neg h]

/-- C7: with a positive direction the cursor move is the successor in the
row-major cell index modulo rows*cols — a total cyclic permutation of all
rows*cols cells (in particular the last cell wraps to (0,0)) — it stays in
range, and the negative-direction move is its two-sided inverse. -/
theorem move_cyclic (rows cols r c : Int) (hrows : 0 < rows)
    (hcols : 0 < cols) (hr0 : 0 ≤ r) (hr : r < rows) (hc0 : 0 ≤ c)
    (hc : c < cols) :
    (0 ≤ (move 1 rows cols (r, c)).1 ∧ (move 1 rows cols (r, c)).1 < rows ∧
      0 ≤ (move 1 rows cols (r, c)).2 ∧
      (move 1 rows cols (r, c)).2 < cols) ∧
    (move 1 rows cols (r, c)).1 * cols + (move 1 rows cols (r, c)).2
      = (r * cols + c + 1) % (rows * cols) ∧
    move (-1) rows cols (move 1 rows cols (r, c)) = (r, c) ∧
    move 1 rows cols (move (-1) rows cols (r, c)) = (r, c) ∧
    move 1 rows cols (rows - 1, cols - 1) = (0, 0) := by
  have hlast : move 1 rows cols (rows - 1, cols - 1) = (0, 0) := by
    rw [move_fwd_wrap rows cols (rows - 1) (cols - 1) (by omega),
      show (rows - 1 + 1 : Int) = rows by ring, Int.emod_self]
  have hinv2 : move 1 rows cols (move (-1) rows cols (r, c)) = (r, c) := by
    by_cases hcz : (c - 1 : Int) < 0
    · rw [move_bwd_wrap rows cols r c hcz,
        move_fwd_wrap rows cols ((r - 1) % rows) (cols - 1) (by omega),
        succ_pred_emod rows r hr0 hr, show c = 0 by omega]
    · rw [move_bwd_step rows cols r c hcz,
        move_fwd_step rows cols r (c - 1) (by omega),
        show (c - 1 + 1 : Int) = c by ring]
  by_cases hwrap : c + 1 ≥ cols
  · have hceq : c = cols - 1 := by omega
    rw [move_fwd_wrap rows cols r c hwrap]
    have hmodr0 : 0 ≤ (r + 1) % rows := Int.emod_nonneg _ (by omega)
    have hmodrl : (r + 1) % rows < rows := Int.emod_lt_of_pos _ hrows
    refine ⟨⟨hmodr0, hmodrl, le_refl 0, hcols⟩, ?_, ?_, hinv2, hlast⟩
    · have hidx : (r * cols + c + 1 : Int) = (r + 1) * cols := by
        rw [hceq]; ring
      rw [hidx]
      rcases eq_or_lt_of_le (Int.add_one_le_iff.mpr hr) with heq | hlt
      · rw [heq, Int.emod_self, Int.emod_self, Int.zero_mul, Int.add_zero]
      · have hlt2 : (r + 1) * cols < rows * cols :=
          mul_lt_mul_of_pos_right hlt hcols
        rw [Int.emod_eq_of_lt (by positivity) hlt2,
          Int.emod_eq_of_lt (by omega) hlt, Int.add_zero]
    · rw [move_bwd_wrap rows cols ((r + 1) % rows) 0 (by omega),
        pred_succ_emod rows r hr0 hr, hceq]
  · rw [move_fwd_step rows cols r c hwrap]
    refine ⟨⟨hr0, hr, by omega, by omega⟩, ?_, ?_, hinv2, hlast⟩
    · have hle : r * cols ≤ (rows - 1) * cols :=
        mul_le_mul_of_nonneg_right (by omega) (by omega)
      have hexp : ((rows - 1) * cols : Int) = rows * cols - cols := by ring
      have hub : (r * cols + c + 1 : Int) < rows * cols := by omega
      have hlb : (0:Int) ≤ r * cols + c + 1 := by
        have := mul_nonneg hr0 (le_of_lt hcols)
        omega
      rw [Int.emod_eq_of_lt hlb hub]
      dsimp only
      ring
    · rw [move_bwd_step rows cols r (c + 1) (by omega),
        show (c + 1 - 1 : Int) = c by ring]

theorem move_cyclic_witness :
    (0 ≤ (move 1 2 3 (1, 2)).1 ∧ (move 1 2 3 (1, 2)).1 < 2 ∧
      0 ≤ (move 1 2 3 (1, 2)).2 ∧ (move 1 2 3 (1, 2)).2 < 3) ∧
    (move 1 2 3 (1, 2)).1 * 3 + (move 1 2 3 (1, 2)).2
      = (1 * 3 + 2 + 1) % (2 * 3) ∧
    move (-1) 2 3 (move 1 2 3 (1, 2)) = (1, 2) ∧
    move 1 2 3 (move (-1) 2 3 (1, 2)) = (1, 2) ∧
    move 1 2 3 (2 - 1, 3 - 1) = (0, 0) :=
  move_cyclic 2 3 1 2 (by norm_num) (by norm_num) (by norm_num)
    (by norm_num) (by norm_num) (by norm_num)

/-! ## Theorems: digging (C9) -/

/-- C9: digging the cell under the cursor when that cell is already
revealed is a complete no-op — the whole game state (score, health,
treasures found, grid, revealed array, cursor, disarm-opportunity flag,
disarm-active flag, timestamps) is returned unchanged, and no disarm
sub-state is entered. -/
theorem dig_revealed_noop (g : GameState) (now : ℚ)
    (h : getCell false g.rev g.pos.1 g.pos.2 = true) : dig g now = g := by
  unfold dig
  rw [if_pos h]

theorem dig_revealed_noop_witness : dig wState 0 = wState :=
  dig_revealed_noop wState 0 (by rfl)

/-! ## Theorems: level initialization (C10) -/

/-- C10: every level initialization — at entry to each of levels 1..9 and
at every regeneration after a timeout, both of which run `ilvl` — resets
health to the selected difficulty's full starting health and the time
limit to the difficulty's per-level limit, so health lost to bombs,
timeouts or failed disarms never carries over. -/
theorem ilvl_resets_health_time (g : GameState) (rnd : Nat → Nat)
    (now : ℚ) :
    (ilvl g rnd now).hp = (cfg g.df).hp ∧
    (ilvl g rnd now).tlm = (cfg g.df).t :=
  ⟨rfl, rfl⟩

/-! ## Theorems: final level (C8) -/

/-- C8: in state LV10 a confirm press with the correct choice adds the
fixed 500-point bonus and transitions to WIN; a wrong choice decrements
the final-level health — reaching 0 transitions to OVER, otherwise the
correct answer is re-randomized (`newCor`), the countdown restarts from
the full final-level limit (`stm := now`, the limit itself untouched) and
every other field, in particular `st`, stays as it was (the state remains
LV10). -/
theorem lv10_confirm_spec (g : GameState) (cor newCor : Nat) (now : ℚ) :
    (g.fch = cor →
      lv10Confirm g cor newCor now
        = ({ g with sc := g.sc + 500, st := GState.WIN }, cor)) ∧
    (g.fch ≠ cor → g.fhp - 1 ≤ 0 →
      lv10Confirm g cor newCor now
        = ({ g with fhp := g.fhp - 1, st := GState.OVER }, cor)) ∧
    (g.fch ≠ cor → 0 < g.fhp - 1 →
      lv10Confirm g cor newCor now
        = ({ g with fhp := g.fhp - 1, stm := now }, newCor)) := by
  unfold lv10Confirm
  refine ⟨fun h => by rw [if_pos h],
    fun h h2 => by rw [if_neg h]; dsimp only; rw [if_pos h2],
    fun h h2 => by rw [if_neg h]; dsimp only; rw [if_neg (by omega)]⟩

theorem lv10_confirm_spec_witness :
    lv10Confirm { wState with st := GState.LV10 } 0 1 5
      = ({ wState with st := GState.WIN, sc := wState.sc + 500 }, 0) ∧
    lv10Confirm { wState with st := GState.LV10, fch := 1 } 0 1 5
      = ({ wState with
            st := GState.LV10
            fch := 1
            fhp := wState.fhp - 1
            stm := 5 }, 1) :=
  ⟨(lv10_confirm_spec { wState with st := GState.LV10 } 0 1 5).1 rfl,
   (lv10_confirm_spec { wState with st := GState.LV10, fch := 1 } 0 1 5).2.2
     (by decide) (by decide)⟩

/-! ## Theorems: disarm sub-state (C2) -/

/-- C2 (amended): while the disarm sub-state is active, each iteration
checks the timeout FIRST: once the elapsed time has reached the disarm
duration the sub-state resolves FAILURE — deactivate, one health lost, no
score bonus, OVER when health is exhausted — even when the same
iteration's motion sample exceeds the shake threshold; only when the
timeout has not yet been reached does a motion sample exceeding the
gravity baseline by more than the shake threshold resolve SUCCESS —
deactivate, the fixed +100 score bonus, no health lost, outer state
untouched. -/
theorem disarm_ordering (g : GameState) (now : ℚ)
    (accel : Option (ℚ × ℚ × ℚ)) :
    (now - g.shake_start_time ≥ shake_duration →
      (disarmStep g now accel).bomb_disarm_active = false ∧
      (disarmStep g now accel).hp = g.hp - 1 ∧
      (disarmStep g now accel).sc = g.sc ∧
      (g.hp - 1 ≤ 0 → (disarmStep g now accel).st = GState.OVER) ∧
      (0 < g.hp - 1 → (disarmStep g now accel).st = g.st)) ∧
    (now - g.shake_start_time < shake_duration →
      check_shake accel = true →
      (disarmStep g now accel).bomb_disarm_active = false ∧
      (disarmStep g now accel).sc = g.sc + 100 ∧
      (disarmStep g now accel).hp = g.hp ∧
      (disarmStep g now accel).st = g.st) := by
  unfold disarmStep
  by_cases htick : now - g.last_tick_time > 1/2
  · rw [if_pos htick]
    dsimp only
    refine ⟨fun hT => ?_, fun hT hS => ?_⟩
    · rw [if_pos hT]
      by_cases hhp : g.hp - 1 ≤ 0
      · rw [if_pos hhp]
        exact ⟨rfl, rfl, rfl, fun _ => rfl, fun hh => absurd hhp (by omega)⟩
      · rw [if_neg hhp]
        exact ⟨rfl, rfl, rfl, fun hh => absurd hh hhp, fun _ => rfl⟩
    · rw [if_neg (not_le.mpr hT), if_pos hS]
      exact ⟨rfl, rfl, rfl, rfl⟩
  · rw [if_neg htick]
    refine ⟨fun hT => ?_, fun hT hS => ?_⟩
    · rw [if_pos hT]
      dsimp only
      by_cases hhp : g.hp - 1 ≤ 0
      · rw [if_pos hhp]
        exact ⟨rfl, rfl, rfl, fun _ => rfl, fun hh => absurd hhp (by omega)⟩
      · rw [if_neg hhp]
        exact ⟨rfl, rfl, rfl, fun hh => absurd hh hhp, fun _ => rfl⟩
    · rw [if_neg (not_le.mpr hT), if_pos hS]
      exact ⟨rfl, rfl, rfl, rfl⟩

theorem disarm_ordering_witness :
    ((disarmStep { wState with bomb_disarm_active := true } 3
        (some (12, 0, 0))).bomb_disarm_active = false ∧
      (disarmStep { wState with bomb_disarm_active := true } 3
        (some (12, 0, 0))).hp
          = { wState with bomb_disarm_active := true }.hp - 1 ∧
      (disarmStep { wState with bomb_disarm_active := true } 3
        (some (12, 0, 0))).sc = { wState with bomb_disarm_active := true }.sc ∧
      ({ wState with bomb_disarm_active := true }.hp - 1 ≤ 0 →
        (disarmStep { wState with bomb_disarm_active := true } 3
          (some (12, 0, 0))).st = GState.OVER) ∧
      (0 < { wState with bomb_disarm_active := true }.hp - 1 →
        (disarmStep { wState with bomb_disarm_active := true } 3
          (some (12, 0, 0))).st
            = { wState with bomb_disarm_active := true }.st)) ∧
    ((disarmStep { wState with bomb_disarm_active := true } 1
        (some (12, 0, 0))).bomb_disarm_active = false ∧
      (disarmStep { wState with bomb_disarm_active := true } 1
        (some (12, 0, 0))).sc
          = { wState with bomb_disarm_active := true }.sc + 100 ∧
      (disarmStep { wState with bomb_disarm_active := true } 1
        (some (12, 0, 0))).hp = { wState with bomb_disarm_active := true }.hp ∧
      (disarmStep { wState with bomb_disarm_active := true } 1
        (some (12, 0, 0))).st = { wState with bomb_disarm_active := true }.st) :=
  ⟨(disarm_ordering { wState with bomb_disarm_active := true } 3
      (some (12, 0, 0))).1 (by norm_num [wState, shake_duration]),
   (disarm_ordering { wState with bomb_disarm_active := true } 1
      (some (12, 0, 0))).2 (by norm_num [wState, shake_duration])
      (by norm_num [check_shake, shake_threshold])⟩

/-- C2 counterexample: with the disarm active since t = 0 and duration
3 s, the iteration at t = 3 where the motion sample (12, 0, 0) DOES
exceed the shake threshold resolves FAILURE — health 6 → 5, no +100
bonus — not SUCCESS: the timeout branch is evaluated before the shake
branch, so a simultaneous shake and timeout does not resolve to SUCCESS
as the claim states. -/
theorem disarm_simultaneous_counterexample :
    check_shake (some (12, 0, 0)) = true ∧
    (3:ℚ) - { wState with bomb_disarm_active := true }.shake_start_time
      ≥ shake_duration ∧
    (disarmStep { wState with bomb_disarm_active := true } 3
      (some (12, 0, 0))).sc = 0 ∧
    (disarmStep { wState with bomb_disarm_active := true } 3
      (some (12, 0, 0))).hp = 5 ∧
    (disarmStep { wState with bomb_disarm_active := true } 3
      (some (12, 0, 0))).bomb_disarm_active = false := by
  norm_num [check_shake, disarmStep, wState, shake_duration,
    shake_threshold]

/-! ## Theorems: play-loop timeout (C1) -/

/-- C1 (amended): in PLAY, when the remaining level time reaches 0 while
no disarm is active, health is decremented by exactly one; if the
decremented health is ≤ 0 the controller transitions to OVER without
regenerating the level (everything except `hp` and `st` is untouched);
otherwise the current level is regenerated via `ilvl`, which resets
health to the difficulty's FULL starting health — not to one less than
before the timeout — and the timer to the full limit, and play continues
in the unchanged state PLAY. -/
theorem play_timeout_spec (g : GameState) (rnd : Nat → Nat) (now : ℚ)
    (h : g.tlm - ⌊now - g.stm⌋ ≤ 0) :
    (g.hp - 1 ≤ 0 →
      playTimeCheck g rnd now
        = { g with hp := g.hp - 1, st := GState.OVER }) ∧
    (0 < g.hp - 1 →
      playTimeCheck g rnd now = ilvl { g with hp := g.hp - 1 } rnd now ∧
      (playTimeCheck g rnd now).st = g.st ∧
      (playTimeCheck g rnd now).hp = (cfg g.df).hp ∧
      (playTimeCheck g rnd now).tlm = (cfg g.df).t) := by
  unfold playTimeCheck
  rw [if_pos (by omega : max 0 (g.tlm - ⌊now - g.stm⌋) ≤ 0)]
  dsimp only
  constructor
  · intro hhp
    rw [if_pos hhp]
  · intro hhp
    rw [if_neg (by omega : ¬ (g.hp - 1 ≤ 0))]
    exact ⟨rfl, rfl, rfl, rfl⟩

theorem play_timeout_spec_witness :
    playTimeCheck { wState with hp := 1 } (fun _ => 0) 60
      = { wState with hp := 1 - 1, st := GState.OVER } :=
  (play_timeout_spec { wState with hp := 1 } (fun _ => 0) 60
    (by norm_num [wState])).1 (by norm_num [wState])

/-- C1 counterexample: easy difficulty, health 6, level 1, limit 60 s,
timeout at t = 60 with no disarm active — the decremented health 5 is
positive, so the level is regenerated, but the regenerated state has
health 6 (the full easy starting health), not 5: "play continues with
health equal to one less than it was before the timeout" is false. -/
theorem play_timeout_counterexample :
    (playTimeCheck wState (fun _ => 0) 60).st = GState.PLAY ∧
    (playTimeCheck wState (fun _ => 0) 60).hp = 6 ∧
    wState.hp - 1 = 5 := by
  norm_num [playTimeCheck, wState, ilvl, cfg]

/-! ## Theorems: grid generation (C5) -/

theorem getD_of_lt {α : Type} (l : List α) (n : Nat) (d : α)
    (h : n < l.length) : l.getD n d = l[n] := by
  rw [List.getD_eq_getElem?_getD, List.getElem?_eq_getElem h]
  rfl

theorem getD_of_le {α : Type} (l : List α) (n : Nat) (d : α)
    (h : l.length ≤ n) : l.getD n d = d := by
  rw [List.getD_eq_getElem?_getD, List.getElem?_eq_none h]
  rfl

theorem getD_set_ne {α : Type} (l : List α) (i j : Nat) (a d : α)
    (h : i ≠ j) : (l.set i a).getD j d = l.getD j d := by
  rw [List.getD_eq_getElem?_getD, List.getD_eq_getElem?_getD,
    List.getElem?_set_ne h]

theorem getD_set_self {α : Type} (l : List α) (i : Nat) (a d : α)
    (h : i < l.length) : (l.set i a).getD i d = a := by
  rw [List.getD_eq_getElem?_getD, List.getElem?_set_self h]
  rfl

theorem count_set_add {α : Type} [DecidableEq α] (l : List α) (n : Nat)
    (a b : α) (h : n < l.length) :
    (l.set n a).count b + (if l[n] = b then 1 else 0)
      = l.count b + (if a = b then 1 else 0) := by
  rw [List.set_eq_take_cons_drop a h]
  conv_rhs =>
    rw [show l = l.take n ++ l.drop n from (List.take_append_drop n l).symm]
  rw [List.drop_eq_getElem_cons h]
  simp only [List.count_append, List.count_cons, beq_iff_eq]
  split_ifs <;> omega

theorem count_swapIdx {α : Type} [DecidableEq α] (l : List α) (i j : Nat)
    (b : α) :
    (swapIdx l i j).count b = l.count b := by
  unfold swapIdx
  split
  · next h =>
      obtain ⟨hi, hj⟩ := h
      have hj2 : j < (l.set i (l.get ⟨j, hj⟩)).length := by
        rw [List.length_set]; exact hj
      have e1 := count_set_add (l.set i (l.get ⟨j, hj⟩)) j
        (l.get ⟨i, hi⟩) b hj2
      have e2 := count_set_add l i (l.get ⟨j, hj⟩) b hi
      have hgj : (l.set i (l.get ⟨j, hj⟩))[j] = l[j] := by
        by_cases hij : i = j
        · subst hij
          rw [List.getElem_set_self hj2]
          simp
        · rw [List.getElem_set_ne hij hj2]
      rw [hgj] at e1
      simp only [List.get_eq_getElem] at e1 e2 ⊢
      split_ifs at e1 e2 <;> omega
  · rfl

theorem swapIdx_perm {α : Type} [DecidableEq α] (l : List α) (i j : Nat) :
    List.Perm (swapIdx l i j) l :=
  List.perm_iff_count.mpr (fun b => count_swapIdx l i j b)

theorem shufFrom_perm {α : Type} [DecidableEq α] (rnd : Nat → Nat) :
    ∀ (n : Nat) (l : List α), List.Perm (shufFrom rnd l n) l := by
  intro n
  induction n with
  | zero => exact fun l => List.Perm.refl l
  | succ n ih =>
      intro l
      exact (ih (swapIdx l (n + 1) (rnd (n + 1)))).trans
        (swapIdx_perm l (n + 1) (rnd (n + 1)))

theorem shuf_perm {α : Type} [DecidableEq α] (rnd : Nat → Nat)
    (l : List α) :
    List.Perm (shuf rnd l) l :=
  shufFrom_perm rnd (l.length - 1) l

theorem allCoords_eq (r co : Nat) :
    allCoords r co = (List.range r) ×ˢ (List.range co) := rfl

theorem allCoords_nodup (r co : Nat) : (allCoords r co).Nodup := by
  rw [allCoords_eq]
  exact List.Nodup.product (List.nodup_range r) (List.nodup_range co)

theorem allCoords_length (r co : Nat) : (allCoords r co).length = r * co := by
  rw [allCoords_eq, List.length_product, List.length_range,
    List.length_range]

theorem mem_allCoords (r co : Nat) (p : Nat × Nat) :
    p ∈ allCoords r co ↔ p.1 < r ∧ p.2 < co := by
  obtain ⟨a, b⟩ := p
  rw [allCoords_eq]
  constructor
  · intro h
    have h2 := List.mem_product.mp h
    exact ⟨List.mem_range.mp h2.1, List.mem_range.mp h2.2⟩
  · intro h
    exact List.mem_product.mpr
      ⟨List.mem_range.mpr h.1, List.mem_range.mpr h.2⟩

theorem setCell_length {α : Type} (g : List (List α)) (r c : Nat) (v : α) :
    (setCell g r c v).length = g.length := by
  unfold setCell
  rw [List.length_set]

theorem setCell_rows {α : Type} (g : List (List α)) (r c : Nat) (v : α)
    (co : Nat) (hrows : ∀ row ∈ g, row.length = co) :
    ∀ row ∈ setCell g r c v, row.length = co := by
  intro row hrow
  by_cases hr : r < g.length
  · unfold setCell at hrow
    rcases List.mem_or_eq_of_mem_set hrow with h | h
    · exact hrows row h
    · subst h
      rw [List.length_set, getD_of_lt _ _ _ hr]
      exact hrows _ (List.getElem_mem hr)
  · unfold setCell at hrow
    rw [List.set_eq_of_length_le (by omega)] at hrow
    exact hrows row hrow

theorem getCell_setCell_ne {α : Type} (d v : α) (g : List (List α))
    (p q : Nat × Nat) (h : p ≠ q) :
    getCell d (setCell g p.1 p.2 v) q.1 q.2 = getCell d g q.1 q.2 := by
  unfold getCell setCell
  by_cases hr : p.1 = q.1
  · have hc : p.2 ≠ q.2 := fun hc => h (Prod.ext hr hc)
    rw [← hr]
    by_cases hlen : p.1 < g.length
    · rw [getD_set_self _ _ _ _ hlen, getD_set_ne _ _ _ _ _ hc]
    · rw [List.set_eq_of_length_le (by omega)]
  · rw [getD_set_ne _ _ _ _ _ hr]

theorem getCell_replicate (r co i j : Nat) :
    getCell ' ' (List.replicate r (List.replicate co ' ')) i j = ' ' := by
  unfold getCell
  by_cases hi : i < r
  · have h1 : (List.replicate r (List.replicate co ' ')).getD i []
        = List.replicate co ' ' := by
      rw [getD_of_lt _ _ _ (by rw [List.length_replicate]; exact hi),
        List.getElem_replicate]
    rw [h1]
    by_cases hj : j < co
    · rw [getD_of_lt _ _ _ (by rw [List.length_replicate]; exact hj),
        List.getElem_replicate]
    · rw [getD_of_le _ _ _ (by rw [List.length_replicate]; omega)]
  · have h1 : (List.replicate r (List.replicate co ' ')).getD i [] = [] :=
      getD_of_le _ _ _ (by rw [List.length_replicate]; omega)
    rw [h1]
    simp

theorem countGrid_replicate (r co : Nat) (w : Char) :
    countGrid (List.replicate r (List.replicate co ' ')) w
      = if ' ' = w then r * co else 0 := by
  unfold countGrid
  rw [List.map_replicate, List.sum_replicate, smul_eq_mul]
  rw [List.count_replicate]
  split_ifs with h1 h2 h2 <;> simp_all [beq_iff_eq]

theorem countGrid_setCell_add (g : List (List Char)) (r c : Nat)
    (v w : Char) (hr : r < g.length) (hc : c < (g.getD r []).length) :
    countGrid (setCell g r c v) w + (if getCell ' ' g r c = w then 1 else 0)
      = countGrid g w + (if v = w then 1 else 0) := by
  have hrow := count_set_add (g.getD r []) c v w hc
  unfold countGrid setCell getCell
  rw [List.set_eq_take_cons_drop _ hr]
  conv_rhs =>
    rw [show g = g.take r ++ g.drop r from (List.take_append_drop r g).symm]
  rw [List.drop_eq_getElem_cons hr]
  simp only [List.map_append, List.map_cons, List.sum_append, List.sum_cons]
  have e1 : g.getD r [] = g[r] := getD_of_lt g r [] hr
  have e2 : (g.getD r []).getD c ' ' = (g.getD r [])[c] :=
    getD_of_lt _ _ _ hc
  rw [← e1]
  simp only [e2]
  split_ifs at hrow ⊢ <;> omega

theorem place_nil (g : List (List Char)) (v : Char) : place g [] v = g := rfl

theorem place_cons (g : List (List Char)) (p : Nat × Nat)
    (rest : List (Nat × Nat)) (v : Char) :
    place g (p :: rest) v = place (setCell g p.1 p.2 v) rest v := rfl

theorem place_length (coords : List (Nat × Nat)) (v : Char) :
    ∀ g : List (List Char), (place g coords v).length = g.length := by
  induction coords with
  | nil => intro g; rfl
  | cons p rest ih =>
      intro g
      rw [place_cons, ih, setCell_length]

theorem place_rows (coords : List (Nat × Nat)) (v : Char) (co : Nat) :
    ∀ g : List (List Char), (∀ row ∈ g, row.length = co) →
      ∀ row ∈ place g coords v, row.length = co := by
  induction coords with
  | nil => intro g h; exact h
  | cons p rest ih =>
      intro g h
      rw [place_cons]
      exact ih _ (setCell_rows g p.1 p.2 v co h)

theorem place_spec (v : Char) (hv : v ≠ ' ') (coords : List (Nat × Nat)) :
    ∀ (g : List (List Char)) (co : Nat),
      (∀ row ∈ g, row.length = co) →
      coords.Nodup →
      (∀ p ∈ coords, p.1 < g.length ∧ p.2 < co) →
      (∀ p ∈ coords, getCell ' ' g p.1 p.2 = ' ') →
      countGrid (place g coords v) v = countGrid g v + coords.length ∧
      (∀ w, w ≠ v → w ≠ ' ' →
        countGrid (place g coords v) w = countGrid g w) ∧
      countGrid (place g coords v) ' ' + coords.length = countGrid g ' ' ∧
      (∀ q : Nat × Nat, q ∉ coords →
        getCell ' ' (place g coords v) q.1 q.2 = getCell ' ' g q.1 q.2) := by
  induction coords with
  | nil =>
      intro g co hshape hnd hrange hblank
      refine ⟨by simp [place_nil], fun w _ _ => by rw [place_nil],
        by simp [place_nil], fun q _ => by rw [place_nil]⟩
  | cons p rest ih =>
      intro g co hshape hnd hrange hblank
      rw [place_cons]
      have hp := hrange p (List.mem_cons_self p rest)
      have hpb := hblank p (List.mem_cons_self p rest)
      have hrowlen : (g.getD p.1 []).length = co := by
        rw [getD_of_lt _ _ _ hp.1]
        exact hshape _ (List.getElem_mem hp.1)
      have hc : p.2 < (g.getD p.1 []).length := by
        rw [hrowlen]; exact hp.2
      have hndr : rest.Nodup := (List.nodup_cons.mp hnd).2
      have hpnr : p ∉ rest := (List.nodup_cons.mp hnd).1
      have hshape2 : ∀ row ∈ setCell g p.1 p.2 v, row.length = co :=
        setCell_rows g p.1 p.2 v co hshape
      have hrange2 : ∀ q ∈ rest,
          q.1 < (setCell g p.1 p.2 v).length ∧ q.2 < co := by
        intro q hq
        rw [setCell_length]
        exact hrange q (List.mem_cons_of_mem p hq)
      have hblank2 : ∀ q ∈ rest,
          getCell ' ' (setCell g p.1 p.2 v) q.1 q.2 = ' ' := by
        intro q hq
        rw [getCell_setCell_ne ' ' v g p q (fun he => hpnr (he ▸ hq))]
        exact hblank q (List.mem_cons_of_mem p hq)
      obtain ⟨ih1, ih2, ih3, ih4⟩ :=
        ih (setCell g p.1 p.2 v) co hshape2 hndr hrange2 hblank2
      have hstep := fun w => countGrid_setCell_add g p.1 p.2 v w hp.1 hc
      refine ⟨?_, ?_, ?_, ?_⟩
      · have hsv := hstep v
        rw [hpb] at hsv
        rw [if_neg (fun he => hv he.symm), if_pos rfl] at hsv
        rw [ih1]
        simp only [List.length_cons]
        omega
      · intro w hwv hws
        have hsw := hstep w
        rw [hpb] at hsw
        rw [if_neg (fun he => hws he.symm), if_neg (fun he => hwv he.symm)]
          at hsw
        rw [ih2 w hwv hws]
        omega
      · have hss := hstep ' '
        rw [hpb] at hss
        rw [if_pos rfl, if_neg hv] at hss
        simp only [List.length_cons]
        omega
      · intro q hq
        have hq1 : q ∉ rest := fun hh => hq (List.mem_cons_of_mem p hh)
        have hq2 : p ≠ q := fun he => hq (he ▸ List.mem_cons_self p rest)
        rw [ih4 q hq1, getCell_setCell_ne ' ' v g p q hq2]

theorem genGrid_eq (rnd : Nat → Nat) (r co tr bm : Nat) :
    genGrid rnd r co tr bm
      = place (place (List.replicate r (List.replicate co ' '))
          ((shuf rnd (allCoords r co)).take tr) 'T')
        (((shuf rnd (allCoords r co)).drop tr).take bm) 'B' := rfl

/-- C5: for every level configuration (rows `r`, cols `co`, treasure
count `tr`, bomb count `bm`) with `tr + bm ≤ r * co`, and every sequence
of random choices in range (`rnd i ≤ i`, the contract of
`random.randint(0, i)`), grid generation — the Fisher-Yates shuffle of
the full coordinate enumeration followed by marking the first `tr`
shuffled coordinates treasure and the next `bm` bomb — produces an
`r × co` grid holding exactly `tr` treasure cells and exactly `bm` bomb
cells (necessarily at distinct positions), every remaining cell being
empty. -/
theorem genGrid_spec (rnd : Nat → Nat) (r co tr bm : Nat)
    (hrnd : ∀ i, rnd i ≤ i) (hcap : tr + bm ≤ r * co) :
    (genGrid rnd r co tr bm).length = r ∧
    (∀ row ∈ genGrid rnd r co tr bm, row.length = co) ∧
    countGrid (genGrid rnd r co tr bm) 'T' = tr ∧
    countGrid (genGrid rnd r co tr bm) 'B' = bm ∧
    countGrid (genGrid rnd r co tr bm) ' ' = r * co - tr - bm := by
  have hperm := shuf_perm rnd (allCoords r co)
  have hnodup : (shuf rnd (allCoords r co)).Nodup :=
    hperm.symm.nodup (allCoords_nodup r co)
  have hlen : (shuf rnd (allCoords r co)).length = r * co :=
    hperm.length_eq.trans (allCoords_length r co)
  have hmemS : ∀ p ∈ shuf rnd (allCoords r co), p.1 < r ∧ p.2 < co := by
    intro p hp
    exact (mem_allCoords r co p).mp (hperm.mem_iff.mp hp)
  have hTlen : ((shuf rnd (allCoords r co)).take tr).length = tr := by
    rw [List.length_take, hlen]; omega
  have hBlen : (((shuf rnd (allCoords r co)).drop tr).take bm).length = bm := by
    rw [List.length_take, List.length_drop, hlen]; omega
  have hTnd : ((shuf rnd (allCoords r co)).take tr).Nodup :=
    (List.take_sublist tr _).nodup hnodup
  have hBnd : (((shuf rnd (allCoords r co)).drop tr).take bm).Nodup :=
    ((List.take_sublist bm _).trans (List.drop_sublist tr _)).nodup hnodup
  have hTmem : ∀ p ∈ (shuf rnd (allCoords r co)).take tr,
      p.1 < r ∧ p.2 < co :=
    fun p hp => hmemS p (List.mem_of_mem_take hp)
  have hBmemS : ∀ p ∈ ((shuf rnd (allCoords r co)).drop tr).take bm,
      p ∈ (shuf rnd (allCoords r co)).drop tr :=
    fun p hp => List.mem_of_mem_take hp
  have hBmem : ∀ p ∈ ((shuf rnd (allCoords r co)).drop tr).take bm,
      p.1 < r ∧ p.2 < co :=
    fun p hp => hmemS p (List.mem_of_mem_drop (hBmemS p hp))
  have hdisj : ∀ q ∈ ((shuf rnd (allCoords r co)).drop tr).take bm,
      q ∉ (shuf rnd (allCoords r co)).take tr := by
    intro q hqB hqT
    have hnd2 : ((shuf rnd (allCoords r co)).take tr
        ++ (shuf rnd (allCoords r co)).drop tr).Nodup := by
      rw [List.take_append_drop]; exact hnodup
    exact (List.nodup_append.mp hnd2).2.2 hqT (hBmemS q hqB)
  have hshape0 : ∀ row ∈ List.replicate r (List.replicate co ' '),
      row.length = co := by
    intro row hrow
    rw [(List.mem_replicate.mp hrow).2, List.length_replicate]
  have hrange1 : ∀ p ∈ (shuf rnd (allCoords r co)).take tr,
      p.1 < (List.replicate r (List.replicate co ' ')).length ∧
        p.2 < co := by
    intro p hp
    rw [List.length_replicate]
    exact hTmem p hp
  have hblank1 : ∀ p ∈ (shuf rnd (allCoords r co)).take tr,
      getCell ' ' (List.replicate r (List.replicate co ' ')) p.1 p.2
        = ' ' :=
    fun p _ => getCell_replicate r co p.1 p.2
  obtain ⟨t1, t2, t3, t4⟩ := place_spec 'T' (by decide)
    ((shuf rnd (allCoords r co)).take tr)
    (List.replicate r (List.replicate co ' ')) co
    hshape0 hTnd hrange1 hblank1
  have hshapeP : ∀ row ∈ place (List.replicate r (List.replicate co ' '))
      ((shuf rnd (allCoords r co)).take tr) 'T', row.length = co :=
    place_rows _ 'T' co _ hshape0
  have hrange2 : ∀ p ∈ ((shuf rnd (allCoords r co)).drop tr).take bm,
      p.1 < (place (List.replicate r (List.replicate co ' '))
        ((shuf rnd (allCoords r co)).take tr) 'T').length ∧ p.2 < co := by
    intro p hp
    rw [place_length, List.length_replicate]
    exact hBmem p hp
  have hblank2 : ∀ p ∈ ((shuf rnd (allCoords r co)).drop tr).take bm,
      getCell ' ' (place (List.replicate r (List.replicate co ' '))
        ((shuf rnd (allCoords r co)).take tr) 'T') p.1 p.2 = ' ' := by
    intro p hp
    rw [t4 p (hdisj p hp)]
    exact getCell_replicate r co p.1 p.2
  obtain ⟨b1, b2, b3, b4⟩ := place_spec 'B' (by decide)
    (((shuf rnd (allCoords r co)).drop tr).take bm)
    (place (List.replicate r (List.replicate co ' '))
      ((shuf rnd (allCoords r co)).take tr) 'T') co
    hshapeP hBnd hrange2 hblank2
  have hc0T : countGrid (List.replicate r (List.replicate co ' ')) 'T'
      = 0 := by
    rw [countGrid_replicate]
    simp
  have hc0B : countGrid (List.replicate r (List.replicate co ' ')) 'B'
      = 0 := by
    rw [countGrid_replicate]
    simp
  have hc0S : countGrid (List.replicate r (List.replicate co ' ')) ' '
      = r * co := by
    rw [countGrid_replicate]
    simp
  refine ⟨?_, ?_, ?_, ?_, ?_⟩
  · rw [genGrid_eq, place_length, place_length, List.length_replicate]
  · rw [genGrid_eq]
    exact place_rows _ 'B' co _ hshapeP
  · rw [genGrid_eq, b2 'T' (by decide) (by decide), t1, hc0T, hTlen]
    omega
  · rw [genGrid_eq, b1, t2 'B' (by decide) (by decide), hc0B, hBlen]
    omega
  · rw [hBlen] at b3
    rw [hTlen, hc0S] at t3
    rw [genGrid_eq]
    omega

theorem genGrid_spec_witness :
    (genGrid (fun _ => 0) 2 2 2 1).length = 2 ∧
    (∀ row ∈ genGrid (fun _ => 0) 2 2 2 1, row.length = 2) ∧
    countGrid (genGrid (fun _ => 0) 2 2 2 1) 'T' = 2 ∧
    countGrid (genGrid (fun _ => 0) 2 2 2 1) 'B' = 1 ∧
    countGrid (genGrid (fun _ => 0) 2 2 2 1) ' ' = 2 * 2 - 2 - 1 :=
  genGrid_spec (fun _ => 0) 2 2 2 1 (fun i => Nat.zero_le i) (by omega)
